import Mathlib

/-!
Verification of the resilient cached URL-shortener repository core
(`services/gateway/internal`), as a shallow embedding in Lean 4.

Embedding conventions:

* `model.URL` becomes the structure `URL`; the opaque identifier is a `Nat`,
  timestamps are `Int` nanoseconds (Go `time.Time` compared with `Before`,
  i.e. strict `<`), durations are `Nat` nanoseconds (`timeMinute` is Go's
  `time.Minute`).
* The Redis cache together with its circuit breaker is modelled as a
  `CacheState`: a list of keyed entries plus an oracle (a schedule of
  per-operation outcomes: the call reaches the cache, the breaker is open,
  or the transport fails).  An exhausted oracle means "cache healthy".
  This captures every outcome the Go code distinguishes (`redis.Nil`,
  `gobreaker.ErrOpenState`, other errors) without reproducing the breaker's
  internal counters, which the claims do not touch.
* Cache values are `CacheVal`: either a raw string (`.str`, e.g. the
  `__NOT_FOUND__` sentinel or bytes that deserialize to no record) or the
  JSON serialization of a record (`.record u`).  `json.Marshal` of a
  `model.URL` never fails and never produces the sentinel literal, and
  `json.Unmarshal` inverts it; `.record` encodes exactly that.
* The primary store (`URLRepositoryInterface`) is a collaborator: each
  repository method takes the outcome of its single primary-store call as a
  parameter (`dbres`).  `URLRepository.GetByCode` is additionally modelled
  concretely as a lookup by short code over a list of rows, mirroring its
  `WHERE short_code = $1` query.
* `singleflight.Do` with a single caller executes its callback directly;
  the embedding inlines the callback and counts primary-store calls in
  `dbCalls` so that "no DB query was issued" is observable.
* Go's `net/url` is the standard library; `parseURL` embeds the
  authority-form subset of `url.Parse` (scheme://host[:port]/path?query#frag,
  no userinfo, no IPv6 brackets, no percent-escapes, hosts and paths over
  the charsets that `URL.String` reproduces verbatim), and `urlString`
  embeds `URL.String` on that subset.
-/

/-! ## Small string helpers (ASCII; all strings the claims touch are ASCII,
so Go's byte-based `len`/slicing agrees with the `List Char` versions) -/

def asciiLower (c : Char) : Char :=
  if 'A' ≤ c && c ≤ 'Z' then Char.ofNat (c.toNat + 32) else c

def lowerStr (s : String) : String :=
  String.mk (s.data.map asciiLower)

/-- Go `strings.HasSuffix`. -/
def strEndsWith (s tail : String) : Bool :=
  tail.data.isSuffixOf s.data

/-- Go `strings.TrimSuffix`: drop `tail` once, if present. -/
def strTrimSuffix (s tail : String) : String :=
  if strEndsWith s tail then String.mk (s.data.take (s.data.length - tail.data.length)) else s

/-- Go `s[:n]` for ASCII strings. -/
def strTake (s : String) (n : Nat) : String :=
  String.mk (s.data.take n)

/-- Go `len(s)` for ASCII strings. -/
def strLen (s : String) : Nat :=
  s.data.length

/-! ## SHA-256 (`crypto/sha256`), big-endian words, bytes as `Nat < 256` -/

def w32 (n : Nat) : Nat := n % 4294967296

def add32 (a b : Nat) : Nat := (a + b) % 4294967296

def rotr32 (k n : Nat) : Nat := w32 ((n >>> k) ||| (n <<< (32 - k)))

def bsig0 (x : Nat) : Nat := (rotr32 2 x) ^^^ (rotr32 13 x) ^^^ (rotr32 22 x)

def bsig1 (x : Nat) : Nat := (rotr32 6 x) ^^^ (rotr32 11 x) ^^^ (rotr32 25 x)

def ssig0 (x : Nat) : Nat := (rotr32 7 x) ^^^ (rotr32 18 x) ^^^ (x >>> 3)

def ssig1 (x : Nat) : Nat := (rotr32 17 x) ^^^ (rotr32 19 x) ^^^ (x >>> 10)

def chOp (x y z : Nat) : Nat := (x &&& y) ^^^ ((x ^^^ 4294967295) &&& z)

def majOp (x y z : Nat) : Nat := (x &&& y) ^^^ (x &&& z) ^^^ (y &&& z)

def sha256K : List Nat :=
  [1116352408, 1899447441, 3049323471, 3921009573, 961987163, 1508970993,
   2453635748, 2870763221, 3624381080, 310598401, 607225278, 1426881987,
   1925078388, 2162078206, 2614888103, 3248222580, 3835390401, 4022224774,
   264347078, 604807628, 770255983, 1249150122, 1555081692, 1996064986,
   2554220882, 2821834349, 2952996808, 3210313671, 3336571891, 3584528711,
   113926993, 338241895, 666307205, 773529912, 1294757372, 1396182291,
   1695183700, 1986661051, 2177026350, 2456956037, 2730485921, 2820302411,
   3259730800, 3345764771, 3516065817, 3600352804, 4094571909, 275423344,
   430227734, 506948616, 659060556, 883997877, 958139571, 1322822218,
   1537002063, 1747873779, 1955562222, 2024104815, 2227730452, 2361852424,
   2428436474, 2756734187, 3204031479, 3329325298]

structure H8 where
  a : Nat
  b : Nat
  c : Nat
  d : Nat
  e : Nat
  f : Nat
  g : Nat
  h : Nat

def sha256Init : H8 :=
  ⟨1779033703, 3144134277, 1013904242, 2773480762, 1359893119, 2600822924, 528734635, 1541459225⟩

def be64 (n : Nat) : List Nat :=
  [(n >>> 56) % 256, (n >>> 48) % 256, (n >>> 40) % 256, (n >>> 32) % 256,
   (n >>> 24) % 256, (n >>> 16) % 256, (n >>> 8) % 256, n % 256]

def be32 (n : Nat) : List Nat :=
  [(n >>> 24) % 256, (n >>> 16) % 256, (n >>> 8) % 256, n % 256]

def sha256Pad (msg : List Nat) : List Nat :=
  let r := msg.length % 64
  msg ++ [0x80] ++ List.replicate ((119 - r) % 64) 0 ++ be64 (8 * msg.length)

def toWordsBE : List Nat → List Nat
  | b0 :: b1 :: b2 :: b3 :: rest => (((b0 * 256 + b1) * 256 + b2) * 256 + b3) :: toWordsBE rest
  | _ => []

def msgSchedule (block : List Nat) : List Nat :=
  (List.range 48).foldl
    (fun w i =>
      let t := i + 16
      w ++ [add32 (add32 (ssig1 (w.getD (t - 2) 0)) (w.getD (t - 7) 0))
                  (add32 (ssig0 (w.getD (t - 15) 0)) (w.getD (t - 16) 0))])
    (toWordsBE block)

def sha256Round (st : H8) (kw : Nat × Nat) : H8 :=
  let t1 := add32 (add32 (add32 st.h (bsig1 st.e)) (add32 (chOp st.e st.f st.g) kw.1)) kw.2
  let t2 := add32 (bsig0 st.a) (majOp st.a st.b st.c)
  ⟨add32 t1 t2, st.a, st.b, st.c, add32 st.d t1, st.e, st.f, st.g⟩

def sha256Block (st : H8) (block : List Nat) : H8 :=
  let r := ((sha256K.zip (msgSchedule block))).foldl sha256Round st
  ⟨add32 st.a r.a, add32 st.b r.b, add32 st.c r.c, add32 st.d r.d,
   add32 st.e r.e, add32 st.f r.f, add32 st.g r.g, add32 st.h r.h⟩

/-- Split into 64-byte blocks; the fuel (any bound ≥ length) keeps the
recursion structural so the kernel can evaluate it. -/
def chunks64 (fuel : Nat) (l : List Nat) : List (List Nat) :=
  match fuel, l with
  | 0, _ => []
  | _, [] => []
  | fuel + 1, l => l.take 64 :: chunks64 fuel (l.drop 64)

def sha256Bytes (msg : List Nat) : List Nat :=
  let padded := sha256Pad msg
  let st := (chunks64 padded.length padded).foldl sha256Block sha256Init
  be32 st.a ++ be32 st.b ++ be32 st.c ++ be32 st.d ++
    be32 st.e ++ be32 st.f ++ be32 st.g ++ be32 st.h

/-- Go `[]byte(s)`: UTF-8 encoding of a string. -/
def utf8Char (c : Char) : List Nat :=
  let n := c.toNat
  if n < 0x80 then [n]
  else if n < 0x800 then [0xC0 ||| (n >>> 6), 0x80 ||| (n &&& 0x3F)]
  else if n < 0x10000 then
    [0xE0 ||| (n >>> 12), 0x80 ||| ((n >>> 6) &&& 0x3F), 0x80 ||| (n &&& 0x3F)]
  else
    [0xF0 ||| (n >>> 18), 0x80 ||| ((n >>> 12) &&& 0x3F), 0x80 ||| ((n >>> 6) &&& 0x3F),
     0x80 ||| (n &&& 0x3F)]

def utf8Bytes (s : String) : List Nat :=
  s.data.flatMap utf8Char

/-! ## Data model (`internal/model`) and error taxonomy -/

/-- `model.URL`.  The identifier is opaque to the core; timestamps are
nanosecond instants. -/
structure URL where
  id : Nat
  shortCode : String
  originalURL : String
  createdAt : Int
  expiresAt : Option Int
  clickCount : Int
deriving DecidableEq, Repr

/-- Repository-level sentinel errors (`repository.ErrNotFound`,
`repository.ErrCodeConflict`) plus opaque transport/database errors. -/
inductive RepoErr where
  | notFound
  | codeConflict
  | transport (tag : Nat)
deriving DecidableEq, Repr

/-- Service-level sentinel errors (`service.Err*`).  `repo e` is a
repository error bubbled up unchanged (Go returns the very same error
value, so it is never equal to one of the service sentinels). -/
inductive SvcErr where
  | invalidURL
  | urlNotFound
  | urlExpired
  | codeExists
  | invalidAlias
  | shortCodeGeneration
  | repo (e : RepoErr)
deriving DecidableEq, Repr

/-! ## Cache model (Redis client + circuit breaker) -/

/-- A cached value: either raw bytes (`.str`; used for the negative
sentinel and for bytes that are not the serialization of any record) or
the JSON serialization of a record (`.record`). -/
inductive CacheVal where
  | str (s : String)
  | record (u : URL)
deriving DecidableEq, Repr

structure CacheEntry where
  key : String
  val : CacheVal
  ttl : Nat
deriving DecidableEq, Repr

/-- Outcome of one breaker-wrapped cache call: it reaches a healthy cache,
the breaker is open (`gobreaker.ErrOpenState`), or the transport fails. -/
inductive CacheEval where
  | ok
  | breakerOpen
  | transport
deriving DecidableEq, Repr

/-- Error returned by `cacheGet`: `redis.Nil` (key absent), breaker open,
or a transport error. -/
inductive CacheErr where
  | nil
  | openState
  | transportErr
deriving DecidableEq, Repr

/-- Cache contents plus the schedule of outcomes for successive cache
operations (an exhausted schedule means every further call succeeds). -/
structure CacheState where
  entries : List CacheEntry
  oracle : List CacheEval
deriving DecidableEq, Repr

def lookupCache (entries : List CacheEntry) (key : String) : Option CacheEntry :=
  entries.find? (fun e => e.key == key)

def nextEval : List CacheEval → CacheEval × List CacheEval
  | [] => (.ok, [])
  | e :: rest => (e, rest)

/-- `notFoundSentinel` (cached_url_repository.go line 42). -/
def notFoundSentinel : String := "__NOT_FOUND__"

/-- Go `time.Minute` in nanoseconds. -/
def timeMinute : Nat := 60000000000

/-- `json.Unmarshal` into `model.URL`: inverts `json.Marshal`; raw strings
(the sentinel, corrupt bytes) deserialize to no record. -/
def jsonUnmarshalURL : CacheVal → Option URL
  | .record u => some u
  | .str _ => none

namespace CachedURLRepository

/-- `cacheGet` (cached_url_repository.go lines 321-329): one breaker-wrapped
Redis GET. -/
def cacheGet (st : CacheState) (key : String) : Except CacheErr CacheVal × CacheState :=
  match nextEval st.oracle with
  | (.ok, rest) =>
    match lookupCache st.entries key with
    | some e => (.ok e.val, { st with oracle := rest })
    | none => (.error .nil, { st with oracle := rest })
  | (.breakerOpen, rest) => (.error .openState, { st with oracle := rest })
  | (.transport, rest) => (.error .transportErr, { st with oracle := rest })

/-- `cacheSet` (lines 331-340): one breaker-wrapped Redis SET; failures are
logged and swallowed, so only the state is returned. -/
def cacheSet (st : CacheState) (key : String) (data : CacheVal) (ttl : Nat) : CacheState :=
  match nextEval st.oracle with
  | (.ok, rest) =>
    { entries := ⟨key, data, ttl⟩ :: st.entries.filter (fun e => e.key != key), oracle := rest }
  | (_, rest) => { st with oracle := rest }

/-- `cacheDel` (lines 342-351): one breaker-wrapped Redis DEL; failures are
logged and swallowed. -/
def cacheDel (st : CacheState) (key : String) : CacheState :=
  match nextEval st.oracle with
  | (.ok, rest) =>
    { entries := st.entries.filter (fun e => e.key != key), oracle := rest }
  | (_, rest) => { st with oracle := rest }

end CachedURLRepository

instance {ε α : Type} [DecidableEq ε] [DecidableEq α] : DecidableEq (Except ε α) := fun x y =>
  match x, y with
  | .ok a, .ok b =>
    if h : a = b then .isTrue (congrArg Except.ok h)
    else .isFalse (fun he => h (Except.ok.inj he))
  | .error a, .error b =>
    if h : a = b then .isTrue (congrArg Except.error h)
    else .isFalse (fun he => h (Except.error.inj he))
  | .ok _, .error _ => .isFalse (fun he => Except.noConfusion he)
  | .error _, .ok _ => .isFalse (fun he => Except.noConfusion he)

/-- Result of `CachedURLRepository.GetByCode`: the returned value or error,
the cache state afterwards, and how many primary-store queries ran. -/
structure GetResult where
  res : Except RepoErr URL
  st : CacheState
  dbCalls : Nat
deriving DecidableEq, Repr

/-- Result of `CachedURLRepository.Create` / `.Delete`. -/
structure WriteResult where
  res : Except RepoErr Unit
  st : CacheState
deriving DecidableEq, Repr

/-- `rewriteCache` (lines 299-319): on primary not-found cache the sentinel
for one minute; on success cache the serialized record with the configured
TTL; other errors leave the cache alone.  `hasCache` is `r.cache != nil`,
`dbres` the primary store's outcome. -/
def rewriteCache (hasCache : Bool) (ttl : Nat) (st : CacheState) (cacheKey : String)
    (dbres : Except RepoErr URL) : Except RepoErr URL × CacheState :=
  match dbres with
  | .error err =>
    if hasCache && err == .notFound then
      (.error err, CachedURLRepository.cacheSet st cacheKey (.str notFoundSentinel) timeMinute)
    else
      (.error err, st)
  | .ok url =>
    if hasCache then
      (.ok url, CachedURLRepository.cacheSet st cacheKey (.record url) ttl)
    else
      (.ok url, st)

/-- `queryFromDBWithSingleflight` (lines 261-294) for the single-caller
flight: re-check the cache, then query the primary store and rewrite the
cache.  `dbres` is the outcome `r.db.GetByCode(dbCtx, code)` would produce. -/
def queryFromDBWithSingleflight (hasCache : Bool) (ttl : Nat) (dbres : Except RepoErr URL)
    (st : CacheState) (code : String) : GetResult :=
  let cacheKey := "url:" ++ code
  let dbStep : CacheState → GetResult := fun stIn =>
    let (r, stOut) := rewriteCache hasCache ttl stIn cacheKey dbres
    ⟨r, stOut, 1⟩
  if hasCache then
    match CachedURLRepository.cacheGet st cacheKey with
    | (.ok cached, st1) =>
      if cached == .str notFoundSentinel then ⟨.error .notFound, st1, 0⟩
      else
        match jsonUnmarshalURL cached with
        | some url => ⟨.ok url, st1, 0⟩
        | none => dbStep st1
    | (.error _, st1) => dbStep st1
  else
    dbStep st

namespace CachedURLRepository

/-- `GetByCode` (lines 136-179): cache-aside read.  Sentinel hit returns
not-found, a deserializable hit returns the cached record, everything else
(miss, deserialization failure, breaker open, transport error) falls
through to the singleflight primary-store load. -/
def GetByCode (hasCache : Bool) (ttl : Nat) (dbres : Except RepoErr URL)
    (st : CacheState) (code : String) : GetResult :=
  let cacheKey := "url:" ++ code
  if hasCache then
    match cacheGet st cacheKey with
    | (.ok cached, st1) =>
      if cached == .str notFoundSentinel then ⟨.error .notFound, st1, 0⟩
      else
        match jsonUnmarshalURL cached with
        | some url => ⟨.ok url, st1, 0⟩
        | none => queryFromDBWithSingleflight hasCache ttl dbres st1 code
    | (.error _, st1) => queryFromDBWithSingleflight hasCache ttl dbres st1 code
  else
    queryFromDBWithSingleflight hasCache ttl dbres st code

/-- `Create` (lines 183-219): write-through.  `dbres` is the primary
insert's outcome; on success the serialized record is cached (serialization
of a `model.URL` cannot fail), on failure the error is returned and the
cache is untouched. -/
def Create (hasCache : Bool) (ttl : Nat) (dbres : Except RepoErr Unit)
    (st : CacheState) (url : URL) : WriteResult :=
  match dbres with
  | .error err => ⟨.error err, st⟩
  | .ok _ =>
    if hasCache then
      ⟨.ok (), cacheSet st ("url:" ++ url.shortCode) (.record url) ttl⟩
    else
      ⟨.ok (), st⟩

/-- `Delete` (lines 222-250): primary delete first; on success invalidate
the cache key, on failure return the error with the cache untouched. -/
def Delete (hasCache : Bool) (dbres : Except RepoErr Unit)
    (st : CacheState) (code : String) : WriteResult :=
  match dbres with
  | .error err => ⟨.error err, st⟩
  | .ok _ =>
    if hasCache then
      ⟨.ok (), cacheDel st ("url:" ++ code)⟩
    else
      ⟨.ok (), st⟩

end CachedURLRepository

/-- `URLRepository.GetByCode` (url_repository.go lines 61-81): the primary
store selects the row with `short_code = $1`, modelled as a lookup by short
code over the table rows. -/
def URLRepository.GetByCode (rows : List URL) (code : String) : Except RepoErr URL :=
  match rows.find? (fun u => u.shortCode == code) with
  | some u => .ok u
  | none => .error .notFound

/-! ## Short-code generator (`internal/service/shortcode.go`) -/

def isAlphaCh (c : Char) : Bool := ('a' ≤ c && c ≤ 'z') || ('A' ≤ c && c ≤ 'Z')

def isDigitCh (c : Char) : Bool := '0' ≤ c && c ≤ '9'

def isSchemeCh (c : Char) : Bool := isAlphaCh c || isDigitCh c || c == '+' || c == '-' || c == '.'

def isHostCh (c : Char) : Bool := isAlphaCh c || isDigitCh c || c == '.' || c == '-'

def isPathCh (c : Char) : Bool :=
  isAlphaCh c || isDigitCh c || c == '/' || c == '-' || c == '.' || c == '_' || c == '~'

def isCtlCh (c : Char) : Bool := c.toNat < 32 || c.toNat == 127

/-- Parsed URL (`net/url.URL` restricted to the fields the generator
touches; `Opaque`, `User` and `OmitHost` are excluded by the parsed
subset, `RawPath`/`RawFragment` coincide with the decoded fields on it). -/
structure GoURL where
  scheme : String
  host : String
  path : String
  forceQuery : Bool
  rawQuery : String
  fragment : String
deriving DecidableEq, Repr

/-- Go `url.parseAuthority`/`parseHost` restricted: a nonempty run of host
characters, optionally followed by a colon and a nonempty decimal port.
Userinfo (`@`), IPv6 brackets and percent-escapes are outside the subset. -/
def parseAuthority (cs : List Char) : Option String :=
  let hostPart := cs.takeWhile (fun c => c != ':')
  let portPart := cs.dropWhile (fun c => c != ':')
  if hostPart.isEmpty || !hostPart.all isHostCh then none
  else
    match portPart with
    | [] => some (String.mk cs)
    | _ :: port =>
      if !port.isEmpty && port.all isDigitCh then some (String.mk cs) else none

/-- Go `url.Parse` restricted to authority-form URLs
(`scheme://host[:port][/path][?query][#fragment]`).  Order mirrors
`net/url`: split the fragment at the first `#`, read the scheme (first
character a letter) and lowercase it, read the authority up to `/` or `?`,
then apply the `ForceQuery` rule (a trailing lone `?`) or split the query
at the first `?`.  Inputs with control characters, percent-escapes, or
characters the subset's `URL.String` would escape parse to `none`. -/
def parseURL (rawURL : String) : Option GoURL :=
  let cs := rawURL.data
  if cs.any isCtlCh then none
  else
    let beforeFrag := cs.takeWhile (fun c => c != '#')
    let fragPart := (cs.dropWhile (fun c => c != '#')).drop 1
    if fragPart.any (fun c => c == '%') then none
    else
      let schemePart := beforeFrag.takeWhile isSchemeCh
      let afterScheme := beforeFrag.dropWhile isSchemeCh
      match schemePart, afterScheme with
      | c0 :: _, ':' :: '/' :: '/' :: rest =>
        if !isAlphaCh c0 then none
        else
          let auth := rest.takeWhile (fun c => c != '/' && c != '?')
          let tail := rest.dropWhile (fun c => c != '/' && c != '?')
          match parseAuthority auth with
          | none => none
          | some host =>
            let hasLoneQ := tail.getLast? == some '?' && tail.dropLast.all (fun c => c != '?')
            let pathCs := if hasLoneQ then tail.dropLast else tail.takeWhile (fun c => c != '?')
            let queryCs : List Char :=
              if hasLoneQ then [] else (tail.dropWhile (fun c => c != '?')).drop 1
            if !pathCs.all isPathCh then none
            else
              some { scheme := lowerStr (String.mk schemePart), host := host,
                     path := String.mk pathCs, forceQuery := hasLoneQ,
                     rawQuery := String.mk queryCs, fragment := String.mk fragPart }
      | _, _ => none

/-- Go `URL.String` on the parsed subset: scheme and host are nonempty, the
path is empty or absolute, and no component needs escaping. -/
def urlString (u : GoURL) : String :=
  u.scheme ++ "://" ++ u.host ++ u.path
    ++ (if u.forceQuery || u.rawQuery != "" then "?" ++ u.rawQuery else "")
    ++ (if u.fragment != "" then "#" ++ u.fragment else "")

/-- The post-parse normalization pipeline of `Canonicalize`
(shortcode.go lines 34-59): lowercase the host, strip the scheme's default
port, trim one trailing slash from the path, discard the fragment, and
re-render. -/
def canonicalizeURL (u0 : GoURL) : String :=
  let u1 := { u0 with host := lowerStr u0.host }
  let u2 := if u1.scheme == "https" && strEndsWith u1.host ":443"
            then { u1 with host := strTrimSuffix u1.host ":443" } else u1
  let u3 := if u2.scheme == "http" && strEndsWith u2.host ":80"
            then { u2 with host := strTrimSuffix u2.host ":80" } else u2
  let u4 := { u3 with path := strTrimSuffix u3.path "/" }
  let u5 := { u4 with fragment := "" }
  urlString u5

/-- `Canonicalize` (shortcode.go lines 34-59): parse, normalize, re-render;
a parse failure is reported to the caller. -/
def Canonicalize (longURL : String) : Option String :=
  match parseURL longURL with
  | none => none
  | some u => some (canonicalizeURL u)

/-- Big-endian integer of a byte list (`binary.BigEndian.Uint64` on the
first 8 digest bytes once `List.take 8` is applied). -/
def beUint64 (bytes : List Nat) : Nat :=
  bytes.foldl (fun acc b => acc * 256 + b) 0

/-- `HashURL` (shortcode.go lines 62-66): SHA-256 the string, read the
first 8 digest bytes as a big-endian 64-bit integer. -/
def HashURL (s : String) : Nat :=
  beUint64 ((sha256Bytes (utf8Bytes s)).take 8)

/-- `base62Chars` (shortcode.go line 13). -/
def base62Chars : String := "0123456789ABCDEFGHIJKLMNOPQRSTUVWXYZabcdefghijklmnopqrstuvwxyz"

/-- The encoding loop of `EncodeBase62`; the fuel (64 ≥ any base-62 digit
count of a 64-bit integer) keeps the recursion structural. -/
def encodeBase62Loop (fuel num : Nat) (encoded : String) : String :=
  match fuel with
  | 0 => encoded
  | fuel + 1 =>
    if num == 0 then encoded
    else
      let remainder := num % 62
      encodeBase62Loop fuel (num / 62) (String.mk [base62Chars.data.getD remainder '0'] ++ encoded)

/-- `EncodeBase62` (shortcode.go lines 87-98). -/
def EncodeBase62 (num : Nat) : String :=
  if num == 0 then String.mk [base62Chars.data.getD 0 '0']
  else encodeBase62Loop 64 num ""

/-- `ShortCodeGenerator.Generate` (shortcode.go lines 73-84) with the
configured code length. -/
def Generate (codeLength : Nat) (longURL : String) : Except SvcErr String :=
  match Canonicalize longURL with
  | none => .error .invalidURL
  | some c =>
    let s := EncodeBase62 (HashURL c)
    if strLen s < codeLength then .error .shortCodeGeneration
    else .ok (strTake s codeLength)

/-! ## URL service (`internal/service/url_service.go`) -/

structure CreateURLRequest where
  url : String
  customAlias : String
  expiresIn : Int
deriving DecidableEq, Repr

structure CreateURLResponse where
  shortCode : String
  shortURL : String
  expiresAt : Option Int
deriving DecidableEq, Repr

structure URLResponse where
  shortCode : String
  originalURL : String
  shortURL : String
  createdAt : Int
  expiresAt : Option Int
  clickCount : Int
deriving DecidableEq, Repr

/-- One day in nanoseconds; `time.Now().AddDate(0, 0, n)` is modelled as
adding `n` whole days (calendar irregularities are irrelevant to the
claims, which never inspect the computed instant). -/
def nanosPerDay : Int := 86400000000000

/-- The expiry check of `getAndValidateURL` (url_service.go line 180):
`url.ExpiresAt != nil && url.ExpiresAt.Before(time.Now())` — present and
strictly earlier than now. -/
def isExpired (expiresAt : Option Int) (now : Int) : Bool :=
  match expiresAt with
  | some t => decide (t < now)
  | none => false

namespace URLService

/-- The non-custom-alias retry loop of `CreateShortURL` (url_service.go
lines 76-104).  `createRes k` is the outcome of the repository `Create`
at attempt `k` (the cached repository surfaces exactly the primary insert's
outcome); `rem` is the number of attempts left, `attemp` the attempt
counter (spelled as in the source). -/
def createLoop (codeLength : Nat) (urlStr : String)
    (createRes : Nat → Except RepoErr Unit) : Nat → Nat → Except SvcErr String
  | 0, _ => .error .shortCodeGeneration
  | rem + 1, attemp =>
    match Generate codeLength (urlStr ++ toString attemp) with
    | .error genErr => .error genErr
    | .ok candidate =>
      match createRes attemp with
      | .error .codeConflict => createLoop codeLength urlStr createRes rem (attemp + 1)
      | .error e => .error (.repo e)
      | .ok _ => .ok candidate

/-- `CreateShortURL` (url_service.go lines 50-118).  `createRes k` is the
outcome of the k-th repository `Create` call (the custom-alias path only
ever performs call 0). -/
def CreateShortURL (codeLength retries : Nat) (baseURL : String)
    (createRes : Nat → Except RepoErr Unit) (now : Int) (req : CreateURLRequest) :
    Except SvcErr CreateURLResponse :=
  let expiresAt : Option Int :=
    if req.expiresIn > 0 then some (now + req.expiresIn * nanosPerDay) else none
  if req.customAlias != "" then
    match createRes 0 with
    | .error .codeConflict => .error .codeExists
    | .error e => .error (.repo e)
    | .ok _ => .ok ⟨req.customAlias, baseURL ++ "/" ++ req.customAlias, expiresAt⟩
  else
    match createLoop codeLength req.url createRes retries 0 with
    | .error e => .error e
    | .ok shortCode => .ok ⟨shortCode, baseURL ++ "/" ++ shortCode, expiresAt⟩

/-- `getAndValidateURL` (url_service.go lines 169-185).  `repoRes` is the
outcome of `s.repo.GetByCode`. -/
def getAndValidateURL (repoRes : Except RepoErr URL) (now : Int) : Except SvcErr URL :=
  match repoRes with
  | .error .notFound => .error .urlNotFound
  | .error e => .error (.repo e)
  | .ok url => if isExpired url.expiresAt now then .error .urlExpired else .ok url

/-- `GetURL` (url_service.go lines 121-140). -/
def GetURL (repoRes : Except RepoErr URL) (now : Int) (baseURL : String) :
    Except SvcErr URLResponse :=
  match getAndValidateURL repoRes now with
  | .error e => .error e
  | .ok url =>
    .ok ⟨url.shortCode, url.originalURL, baseURL ++ "/" ++ url.shortCode,
         url.createdAt, url.expiresAt, url.clickCount⟩

/-- `Redirect` (url_service.go lines 143-150). -/
def Redirect (repoRes : Except RepoErr URL) (now : Int) : Except SvcErr String :=
  match getAndValidateURL repoRes now with
  | .error e => .error e
  | .ok url => .ok url.originalURL

/-- `DeleteURL` (url_service.go lines 153-161). -/
def DeleteURL (repoRes : Except RepoErr Unit) : Except SvcErr Unit :=
  match repoRes with
  | .error .notFound => .error .urlNotFound
  | .error e => .error (.repo e)
  | .ok _ => .ok ()

end URLService

/-! ## Supporting definitions for the claim statements -/

set_option maxRecDepth 8000

/-- The cache entry under `key` is usable for a read: it is the negative
sentinel or it deserializes to a record. -/
def usableVal (v : CacheVal) : Prop :=
  v = .str notFoundSentinel ∨ (jsonUnmarshalURL v).isSome

/-- Every cached record sits under the key `url:` + its own short code —
the invariant the repository's own writes maintain. -/
def wellKeyedCache (entries : List CacheEntry) : Prop :=
  ∀ e ∈ entries, ∀ u, e.val = .record u → e.key = "url:" ++ u.shortCode

/-- Host normalization named by the claims: lowercase, then drop the
scheme's default port. -/
def dropDefaultPort (scheme host : String) : String :=
  if scheme = "https" then strTrimSuffix host ":443"
  else if scheme = "http" then strTrimSuffix host ":80"
  else host

/-- The equivalence asserted by the claim on parsed URLs: equal schemes and
queries, hosts equal up to case and default-port presence, paths equal up
to one of them carrying a single extra trailing slash, fragments free. -/
def claimEquivURL (p1 p2 : GoURL) : Prop :=
  p1.scheme = p2.scheme ∧
  dropDefaultPort p1.scheme (lowerStr p1.host) = dropDefaultPort p2.scheme (lowerStr p2.host) ∧
  (p1.path = p2.path ∨ p1.path = p2.path ++ "/" ∨ p2.path = p1.path ++ "/") ∧
  p1.forceQuery = p2.forceQuery ∧ p1.rawQuery = p2.rawQuery

/-- The amended equivalence: as `claimEquivURL` but the paths must agree
after trimming one trailing slash from each (which a pair `p ++ "/"` vs
`p` satisfies exactly when `p` does not itself end in a slash). -/
def amendedEquivURL (p1 p2 : GoURL) : Prop :=
  p1.scheme = p2.scheme ∧
  dropDefaultPort p1.scheme (lowerStr p1.host) = dropDefaultPort p2.scheme (lowerStr p2.host) ∧
  strTrimSuffix p1.path "/" = strTrimSuffix p2.path "/" ∧
  p1.forceQuery = p2.forceQuery ∧ p1.rawQuery = p2.rawQuery

/-- Base-62 digit list of `n` (most significant first), via Mathlib's
`Nat.digits`: the independent positional-numeral reading of base 62. -/
def base62Spec (n : Nat) : String :=
  if n = 0 then "0"
  else String.mk ((Nat.digits 62 n).reverse.map (fun d => base62Chars.data.getD d '0'))

/-! ## Helper lemmas -/

theorem string_data_inj {a b : String} (h : a.data = b.data) : a = b := by
  cases a; cases b; exact congrArg String.mk h

theorem string_append_cancel {s a b : String} (h : s ++ a = s ++ b) : a = b := by
  apply string_data_inj
  have hd : s.data ++ a.data = s.data ++ b.data := by
    have := congrArg String.data h
    simpa [String.data_append] using this
  exact List.append_cancel_left hd

theorem lookupCache_some {entries : List CacheEntry} {key : String} {e : CacheEntry}
    (h : lookupCache entries key = some e) : e ∈ entries ∧ e.key = key := by
  refine ⟨List.mem_of_find?_eq_some h, ?_⟩
  have := List.find?_some h
  simpa using this

/-! ## Claims -/

/-- C4: whenever the primary-store call inside `CachedURLRepository.Create`
or `.Delete` returns an error (conflict, not-found, or any other), that
error is surfaced unchanged and the cache state — contents and pending
operation schedule alike — is exactly what it was before the call; in
particular deleting an absent code surfaces not-found and creates no
negative cache entry. -/
theorem claim_C4 :
    ∀ (hasCache : Bool) (ttl : Nat) (st : CacheState) (u : URL) (code : String) (e : RepoErr),
      CachedURLRepository.Create hasCache ttl (.error e) st u = ⟨.error e, st⟩ ∧
      CachedURLRepository.Delete hasCache (.error e) st code = ⟨.error e, st⟩ := by
  intro hasCache ttl st u code e
  exact ⟨rfl, rfl⟩

/-- C8: for a record the repository returns successfully, `GetURL` and
`Redirect` return the url-expired kind exactly when the expiry timestamp
is present and strictly less than the current time (and then never the
URL); otherwise they return the record's data. -/
theorem claim_C8 :
    ∀ (u : URL) (now : Int) (baseURL : String),
      (URLService.GetURL (.ok u) now baseURL =
        if isExpired u.expiresAt now then .error .urlExpired
        else .ok ⟨u.shortCode, u.originalURL, baseURL ++ "/" ++ u.shortCode,
                  u.createdAt, u.expiresAt, u.clickCount⟩) ∧
      (URLService.Redirect (.ok u) now =
        if isExpired u.expiresAt now then .error .urlExpired else .ok u.originalURL) ∧
      (isExpired u.expiresAt now = true ↔ ∃ t, u.expiresAt = some t ∧ t < now) := by
  intro u now baseURL
  refine ⟨?_, ?_, ?_⟩
  · by_cases h : isExpired u.expiresAt now <;>
      simp [URLService.GetURL, URLService.getAndValidateURL, h]
  · by_cases h : isExpired u.expiresAt now <;>
      simp [URLService.Redirect, URLService.getAndValidateURL, h]
  · cases h : u.expiresAt <;> simp [isExpired, h]

/-- C3: when the cache entry under `url:` + code holds the negative
sentinel (and the breaker lets the read through — empty schedule means a
healthy cache), `GetByCode` returns not-found without issuing any call to
the primary store, whatever the primary store would have answered. -/
theorem claim_C3 :
    ∀ (code : String) (entries : List CacheEntry) (e : CacheEntry) (ttl : Nat)
      (dbres : Except RepoErr URL),
      lookupCache entries ("url:" ++ code) = some e →
      e.val = .str notFoundSentinel →
      (CachedURLRepository.GetByCode true ttl dbres ⟨entries, []⟩ code).res = .error .notFound ∧
      (CachedURLRepository.GetByCode true ttl dbres ⟨entries, []⟩ code).dbCalls = 0 := by
  intro code entries e ttl dbres hfind hval
  simp [CachedURLRepository.GetByCode, CachedURLRepository.cacheGet, nextEval, hfind, hval]

/-- C3 witness: a concrete sentinel entry is answered not-found with zero
primary-store calls, even though the primary store would have returned a
record. -/
theorem claim_C3_witness :
    lookupCache [⟨"url:abc", .str notFoundSentinel, 77⟩] ("url:" ++ "abc") =
      some ⟨"url:abc", .str notFoundSentinel, 77⟩ ∧
    (CachedURLRepository.GetByCode true 300 (.ok ⟨1, "abc", "https://e.com", 0, none, 0⟩)
        ⟨[⟨"url:abc", .str notFoundSentinel, 77⟩], []⟩ "abc").res = .error .notFound ∧
    (CachedURLRepository.GetByCode true 300 (.ok ⟨1, "abc", "https://e.com", 0, none, 0⟩)
        ⟨[⟨"url:abc", .str notFoundSentinel, 77⟩], []⟩ "abc").dbCalls = 0 := by
  refine ⟨by decide, ?_⟩
  exact claim_C3 "abc" [⟨"url:abc", .str notFoundSentinel, 77⟩]
    ⟨"url:abc", .str notFoundSentinel, 77⟩ 300 (.ok ⟨1, "abc", "https://e.com", 0, none, 0⟩)
    (by decide) (by decide)

theorem lookupCache_cons_self (key : String) (v : CacheVal) (t : Nat) (l : List CacheEntry) :
    lookupCache (⟨key, v, t⟩ :: l) key = some ⟨key, v, t⟩ := by
  unfold lookupCache
  rw [List.find?_cons_of_pos]
  simp

/-- C2: with a cache configured and healthy but holding no usable entry for
the code (absent, or neither the sentinel nor a deserializable record), a
`GetByCode` whose primary lookup answers not-found surfaces not-found and
leaves the exact byte string `__NOT_FOUND__` under the key `url:` + code
with the negative TTL of one minute. -/
theorem claim_C2 :
    ∀ (code : String) (entries : List CacheEntry) (ttl : Nat),
      (∀ e, lookupCache entries ("url:" ++ code) = some e →
        e.val ≠ .str notFoundSentinel ∧ jsonUnmarshalURL e.val = none) →
      (CachedURLRepository.GetByCode true ttl (.error .notFound) ⟨entries, []⟩ code).res =
          .error .notFound ∧
      lookupCache (CachedURLRepository.GetByCode true ttl (.error .notFound)
          ⟨entries, []⟩ code).st.entries ("url:" ++ code) =
        some ⟨"url:" ++ code, .str notFoundSentinel, timeMinute⟩ ∧
      notFoundSentinel = "__NOT_FOUND__" ∧
      timeMinute = 60000000000 := by
  intro code entries ttl hnouse
  refine ⟨?_, ?_, rfl, rfl⟩
  all_goals
    cases hl : lookupCache entries ("url:" ++ code) with
    | none =>
      simp [CachedURLRepository.GetByCode, CachedURLRepository.cacheGet, nextEval, hl,
        queryFromDBWithSingleflight, rewriteCache, CachedURLRepository.cacheSet,
        lookupCache_cons_self]
    | some e =>
      obtain ⟨hne, hnj⟩ := hnouse e hl
      simp [CachedURLRepository.GetByCode, CachedURLRepository.cacheGet, nextEval, hl,
        queryFromDBWithSingleflight, rewriteCache, CachedURLRepository.cacheSet,
        lookupCache_cons_self, hne, hnj]

/-- C2 witness: on an empty cache, a not-found read caches the sentinel
under `url:nf1` for one minute and surfaces not-found. -/
theorem claim_C2_witness :
    (CachedURLRepository.GetByCode true 300 (.error .notFound) ⟨[], []⟩ "nf1").res =
        .error .notFound ∧
    lookupCache (CachedURLRepository.GetByCode true 300 (.error .notFound)
        ⟨[], []⟩ "nf1").st.entries ("url:" ++ "nf1") =
      some ⟨"url:" ++ "nf1", .str notFoundSentinel, timeMinute⟩ ∧
    notFoundSentinel = "__NOT_FOUND__" ∧
    timeMinute = 60000000000 :=
  claim_C2 "nf1" [] 300 (fun e h => by simp [lookupCache] at h)

/-- C1: cache-operation failures never change the result handed to the
caller.  When both cache reads of a `GetByCode` fail (breaker open or
transport error — any mix), the call returns exactly the primary store's
outcome for the code, for every cache content, every tail schedule (which
governs the swallowed sentinel/record write), and every primary outcome;
and `Create`/`Delete` return success whenever the primary write or delete
succeeded, for every cache state and hence every outcome of the swallowed
cache write or delete. -/
theorem claim_C1 :
    ∀ (code : String) (entries : List CacheEntry) (o1 o2 : CacheEval) (rest : List CacheEval)
      (ttl : Nat) (dbGet : Except RepoErr URL) (st : CacheState) (u : URL)
      (dbc dbd : Except RepoErr Unit),
      o1 ≠ .ok → o2 ≠ .ok →
      (CachedURLRepository.GetByCode true ttl dbGet ⟨entries, o1 :: o2 :: rest⟩ code).res = dbGet ∧
      (dbc = .ok () → (CachedURLRepository.Create true ttl dbc st u).res = .ok ()) ∧
      (dbd = .ok () → (CachedURLRepository.Delete true dbd st code).res = .ok ()) := by
  intro code entries o1 o2 rest ttl dbGet st u dbc dbd h1 h2
  refine ⟨?_, ?_, ?_⟩
  · cases o1 <;> cases o2 <;> try exact absurd rfl h1
    all_goals try exact absurd rfl h2
    all_goals
      cases dbGet with
      | ok v =>
        simp [CachedURLRepository.GetByCode, CachedURLRepository.cacheGet, nextEval,
          queryFromDBWithSingleflight, rewriteCache]
      | error e =>
        cases e <;>
          simp [CachedURLRepository.GetByCode, CachedURLRepository.cacheGet, nextEval,
            queryFromDBWithSingleflight, rewriteCache]
  · intro h; subst h; simp [CachedURLRepository.Create]
  · intro h; subst h; simp [CachedURLRepository.Delete]

/-- C1 witness: with the breaker open on the first read, a transport
failure on the second, a failing write slot, and a usable record actually
sitting in the cache, `GetByCode` still returns exactly the primary
outcome; `Create` and `Delete` succeed against a breaker-open cache. -/
theorem claim_C1_witness :
    (CacheEval.breakerOpen ≠ CacheEval.ok) ∧ (CacheEval.transport ≠ CacheEval.ok) ∧
    ((CachedURLRepository.GetByCode true 300 (.ok ⟨4, "w", "https://w.io", 0, none, 0⟩)
        ⟨[⟨"url:w", .record ⟨9, "w", "https://stale.io", 0, none, 0⟩, 60⟩],
         [.breakerOpen, .transport, .transport]⟩ "w").res =
      .ok ⟨4, "w", "https://w.io", 0, none, 0⟩ ∧
     (CachedURLRepository.Create true 300 (.ok ())
        ⟨[], [.breakerOpen]⟩ ⟨4, "w", "https://w.io", 0, none, 0⟩).res = .ok () ∧
     (CachedURLRepository.Delete true (.ok ()) ⟨[], [.breakerOpen]⟩ "w").res = .ok ()) := by
  refine ⟨by decide, by decide, ?_, ?_, ?_⟩
  · exact (claim_C1 "w" [⟨"url:w", .record ⟨9, "w", "https://stale.io", 0, none, 0⟩, 60⟩]
      .breakerOpen .transport [.transport] 300 (.ok ⟨4, "w", "https://w.io", 0, none, 0⟩)
      ⟨[], [.breakerOpen]⟩ ⟨4, "w", "https://w.io", 0, none, 0⟩ (.ok ()) (.ok ())
      (by decide) (by decide)).1
  · exact (claim_C1 "w" [⟨"url:w", .record ⟨9, "w", "https://stale.io", 0, none, 0⟩, 60⟩]
      .breakerOpen .transport [.transport] 300 (.ok ⟨4, "w", "https://w.io", 0, none, 0⟩)
      ⟨[], [.breakerOpen]⟩ ⟨4, "w", "https://w.io", 0, none, 0⟩ (.ok ()) (.ok ())
      (by decide) (by decide)).2.1 rfl
  · exact (claim_C1 "w" [⟨"url:w", .record ⟨9, "w", "https://stale.io", 0, none, 0⟩, 60⟩]
      .breakerOpen .transport [.transport] 300 (.ok ⟨4, "w", "https://w.io", 0, none, 0⟩)
      ⟨[], [.breakerOpen]⟩ ⟨4, "w", "https://w.io", 0, none, 0⟩ (.ok ()) (.ok ())
      (by decide) (by decide)).2.2 rfl

theorem Generate_ne_invalidAlias (L : Nat) (s : String) :
    Generate L s ≠ .error .invalidAlias := by
  unfold Generate
  cases Canonicalize s with
  | none => simp
  | some c =>
    simp only []
    split <;> simp

theorem createLoop_ne_invalidAlias (L : Nat) (urlStr : String)
    (createRes : Nat → Except RepoErr Unit) :
    ∀ (rem k : Nat), URLService.createLoop L urlStr createRes rem k ≠ .error .invalidAlias := by
  intro rem
  induction rem with
  | zero => intro k; simp [URLService.createLoop]
  | succ n ih =>
    intro k
    unfold URLService.createLoop
    cases hg : Generate L (urlStr ++ toString k) with
    | error e =>
      have hne := Generate_ne_invalidAlias L (urlStr ++ toString k)
      rw [hg] at hne
      simpa using hne
    | ok candidate =>
      cases hc : createRes k with
      | ok _ => simp
      | error e => cases e <;> simp [ih]

/-- C10: a create request with a non-empty custom alias uses the alias
verbatim as the short code — any string at all, no format or length check,
and on success the response's short code is exactly the alias; and no
service operation ever returns the declared invalid-alias kind. -/
theorem claim_C10 :
    ∀ (codeLength retries : Nat) (baseURL : String) (createRes : Nat → Except RepoErr Unit)
      (now : Int) (req : CreateURLRequest) (repoRes : Except RepoErr URL)
      (repoDel : Except RepoErr Unit),
      (req.customAlias ≠ "" → createRes 0 = .ok () →
        URLService.CreateShortURL codeLength retries baseURL createRes now req =
          .ok ⟨req.customAlias, baseURL ++ "/" ++ req.customAlias,
               if req.expiresIn > 0 then some (now + req.expiresIn * nanosPerDay) else none⟩) ∧
      URLService.CreateShortURL codeLength retries baseURL createRes now req ≠
        .error .invalidAlias ∧
      URLService.GetURL repoRes now baseURL ≠ .error .invalidAlias ∧
      URLService.Redirect repoRes now ≠ .error .invalidAlias ∧
      URLService.DeleteURL repoDel ≠ .error .invalidAlias := by
  intro codeLength retries baseURL createRes now req repoRes repoDel
  refine ⟨?_, ?_, ?_, ?_, ?_⟩
  · intro halias hok
    simp [URLService.CreateShortURL, halias, hok]
  · unfold URLService.CreateShortURL
    by_cases halias : req.customAlias = ""
    · simp only [halias]
      cases hl : URLService.createLoop codeLength req.url createRes retries 0 with
      | error e =>
        have := createLoop_ne_invalidAlias codeLength req.url createRes retries 0
        rw [hl] at this
        simpa using this
      | ok c => simp
    · simp only [halias]
      cases hc : createRes 0 with
      | ok _ => simp [halias]
      | error e => cases e <;> simp [halias]
  · unfold URLService.GetURL URLService.getAndValidateURL
    cases repoRes with
    | ok u => by_cases h : isExpired u.expiresAt now <;> simp [h]
    | error e => cases e <;> simp
  · unfold URLService.Redirect URLService.getAndValidateURL
    cases repoRes with
    | ok u => by_cases h : isExpired u.expiresAt now <;> simp [h]
    | error e => cases e <;> simp
  · unfold URLService.DeleteURL
    cases repoDel with
    | ok u => simp
    | error e => cases e <;> simp

/-- C10 witness: an alias full of characters no code format would allow is
used verbatim as the short code, and the instantiated operations do not
produce the invalid-alias kind. -/
theorem claim_C10_witness :
    (("a b!~*" : String) ≠ "") ∧
    ((fun _ => (.ok () : Except RepoErr Unit)) 0 = .ok ()) ∧
    (URLService.CreateShortURL 7 3 "http://s" (fun _ => .ok ()) 0 ⟨"https://x", "a b!~*", 0⟩ =
      .ok ⟨"a b!~*", "http://s" ++ "/" ++ "a b!~*", none⟩ ∧
     URLService.GetURL (.error .notFound) 0 "http://s" ≠ .error .invalidAlias ∧
     URLService.DeleteURL (.ok ()) ≠ .error .invalidAlias) := by
  have h := claim_C10 7 3 "http://s" (fun _ => .ok ()) 0 ⟨"https://x", "a b!~*", 0⟩
    (.error .notFound) (.ok ())
  refine ⟨by decide, rfl, ?_, h.2.2.1, h.2.2.2.2⟩
  have h1 := h.1 (by decide) rfl
  simpa using h1

theorem rewriteCache_res (hasCache : Bool) (ttl : Nat) (st : CacheState) (key : String)
    (dbres : Except RepoErr URL) :
    (rewriteCache hasCache ttl st key dbres).1 = dbres := by
  cases dbres with
  | error e => unfold rewriteCache; dsimp only; split <;> rfl
  | ok u => unfold rewriteCache; dsimp only; split <;> rfl

theorem cacheGet_ok_entries {st : CacheState} {key : String} {v : CacheVal} {st1 : CacheState}
    (h : CachedURLRepository.cacheGet st key = (.ok v, st1)) :
    (∃ e, lookupCache st.entries key = some e ∧ e.val = v) ∧ st1.entries = st.entries := by
  unfold CachedURLRepository.cacheGet at h
  cases horacle : st.oracle with
  | nil =>
    rw [horacle] at h
    simp only [nextEval] at h
    cases hl : lookupCache st.entries key with
    | none => rw [hl] at h; simp at h
    | some e =>
      rw [hl] at h
      simp only [Prod.mk.injEq, Except.ok.injEq] at h
      refine ⟨⟨e, rfl, h.1⟩, ?_⟩
      rw [← h.2]
  | cons ev rest =>
    rw [horacle] at h
    cases ev with
    | ok =>
      simp only [nextEval] at h
      cases hl : lookupCache st.entries key with
      | none => rw [hl] at h; simp at h
      | some e =>
        rw [hl] at h
        simp only [Prod.mk.injEq, Except.ok.injEq] at h
        refine ⟨⟨e, rfl, h.1⟩, ?_⟩
        rw [← h.2]
    | breakerOpen => simp [nextEval] at h
    | transport => simp [nextEval] at h

theorem sfQuery_shortCode {hasCache : Bool} {ttl : Nat} {dbres : Except RepoErr URL}
    {st : CacheState} {code : String} {u : URL}
    (hwk : wellKeyedCache st.entries)
    (hdb : ∀ v, dbres = .ok v → v.shortCode = code)
    (hres : (queryFromDBWithSingleflight hasCache ttl dbres st code).res = .ok u) :
    u.shortCode = code := by
  unfold queryFromDBWithSingleflight at hres
  cases hasCache with
  | false =>
    simp only [Bool.false_eq_true, if_false] at hres
    cases hrw : rewriteCache false ttl st ("url:" ++ code) dbres with
    | mk r stOut =>
      rw [hrw] at hres
      have hr := rewriteCache_res false ttl st ("url:" ++ code) dbres
      rw [hrw] at hr
      apply hdb
      rw [← hr]
      exact hres
  | true =>
    simp only [if_true] at hres
    cases hcg : CachedURLRepository.cacheGet st ("url:" ++ code) with
    | mk got st1 =>
      rw [hcg] at hres
      cases got with
      | error ce =>
        dsimp only at hres
        cases hrw : rewriteCache true ttl st1 ("url:" ++ code) dbres with
        | mk r stOut =>
          rw [hrw] at hres
          have hr := rewriteCache_res true ttl st1 ("url:" ++ code) dbres
          rw [hrw] at hr
          apply hdb
          rw [← hr]
          exact hres
      | ok cached =>
        dsimp only at hres
        by_cases hsent : cached = .str notFoundSentinel
        · rw [if_pos (by simp [hsent])] at hres
          simp at hres
        · rw [if_neg (by simp [hsent])] at hres
          cases hj : jsonUnmarshalURL cached with
          | none =>
            rw [hj] at hres
            cases hrw : rewriteCache true ttl st1 ("url:" ++ code) dbres with
            | mk r stOut =>
              rw [hrw] at hres
              have hr := rewriteCache_res true ttl st1 ("url:" ++ code) dbres
              rw [hrw] at hr
              apply hdb
              rw [← hr]
              exact hres
          | some url =>
            rw [hj] at hres
            simp only [Except.ok.injEq] at hres
            subst hres
            cases cached with
            | str s => simp [jsonUnmarshalURL] at hj
            | record u0 =>
              simp only [jsonUnmarshalURL, Option.some.injEq] at hj
              subst hj
              obtain ⟨⟨e, hl, hval⟩, _⟩ := cacheGet_ok_entries hcg
              obtain ⟨hmem, hkey⟩ := lookupCache_some hl
              have := hwk e hmem u0 hval
              have hkeys : "url:" ++ code = "url:" ++ u0.shortCode := by rw [← hkey, this]
              exact (string_append_cancel hkeys).symm

theorem cacheGet_entries (st : CacheState) (key : String) :
    ((CachedURLRepository.cacheGet st key).2).entries = st.entries := by
  unfold CachedURLRepository.cacheGet
  cases horacle : st.oracle with
  | nil => cases hl : lookupCache st.entries key <;> simp [nextEval, hl]
  | cons ev rest =>
    cases ev with
    | ok => cases hl : lookupCache st.entries key <;> simp [nextEval, hl]
    | breakerOpen => simp [nextEval]
    | transport => simp [nextEval]

/-- C9 (amended): if `GetByCode` returns a record without error then its
`shortCode` equals the requested code, provided every cached record sits
under the key `url:` + its own short code (the invariant the repository's
own writes maintain) and the primary store only answers a lookup for
`code` with a record whose short code is `code` (which its
`WHERE short_code = $1` query guarantees).  Without the cache invariant
the property fails — see the counterexample. -/
theorem claim_C9 :
    ∀ (hasCache : Bool) (ttl : Nat) (code : String) (st : CacheState)
      (dbres : Except RepoErr URL) (u : URL),
      wellKeyedCache st.entries →
      (∀ v, dbres = .ok v → v.shortCode = code) →
      (CachedURLRepository.GetByCode hasCache ttl dbres st code).res = .ok u →
      u.shortCode = code := by
  intro hasCache ttl code st dbres u hwk hdb hres
  unfold CachedURLRepository.GetByCode at hres
  cases hasCache with
  | false =>
    simp only [Bool.false_eq_true, if_false] at hres
    exact sfQuery_shortCode hwk hdb hres
  | true =>
    simp only [if_true] at hres
    cases hcg : CachedURLRepository.cacheGet st ("url:" ++ code) with
    | mk got st1 =>
      rw [hcg] at hres
      have hent : st1.entries = st.entries := by
        have h := cacheGet_entries st ("url:" ++ code)
        rw [hcg] at h
        exact h
      have hwk1 : wellKeyedCache st1.entries := by rw [hent]; exact hwk
      cases got with
      | error ce =>
        dsimp only at hres
        exact sfQuery_shortCode hwk1 hdb hres
      | ok cached =>
        dsimp only at hres
        by_cases hsent : cached = .str notFoundSentinel
        · rw [if_pos (by simp [hsent])] at hres
          simp at hres
        · rw [if_neg (by simp [hsent])] at hres
          cases hj : jsonUnmarshalURL cached with
          | none =>
            rw [hj] at hres
            exact sfQuery_shortCode hwk1 hdb hres
          | some url =>
            rw [hj] at hres
            simp only [Except.ok.injEq] at hres
            subst hres
            cases cached with
            | str s => simp [jsonUnmarshalURL] at hj
            | record u0 =>
              simp only [jsonUnmarshalURL, Option.some.injEq] at hj
              subst hj
              obtain ⟨⟨e, hl, hval⟩, _⟩ := cacheGet_ok_entries hcg
              obtain ⟨hmem, hkey⟩ := lookupCache_some hl
              have hwke := hwk e hmem u0 hval
              have hkeys : "url:" ++ code = "url:" ++ u0.shortCode := by rw [← hkey, hwke]
              exact (string_append_cancel hkeys).symm

/-- C9 counterexample to the claim as stated: over an arbitrary cache
state the property fails.  A cache entry under `url:aaa` holding the
serialization of a record whose short code is `bbb` is returned as-is by
the cache-deserialize path — the code never checks the deserialized
record against the requested code — so a non-failing read returns a
record whose `shortCode` differs from the requested code. -/
theorem claim_C9_counterexample :
    (CachedURLRepository.GetByCode true 300 (.error .notFound)
        ⟨[⟨"url:aaa", .record ⟨7, "bbb", "https://x.io", 0, none, 0⟩, 300⟩], []⟩ "aaa").res =
      .ok ⟨7, "bbb", "https://x.io", 0, none, 0⟩ ∧
    (URL.mk 7 "bbb" "https://x.io" 0 none 0).shortCode ≠ "aaa" := by
  exact ⟨by decide, by decide⟩

/-- C9 witness: on a well-keyed cache the amended theorem applies and the
returned record's short code equals the requested code. -/
theorem claim_C9_witness :
    wellKeyedCache [⟨"url:ccc", .record ⟨1, "ccc", "https://c.io", 0, none, 0⟩, 60⟩] ∧
    (CachedURLRepository.GetByCode true 300 (.error .notFound)
        ⟨[⟨"url:ccc", .record ⟨1, "ccc", "https://c.io", 0, none, 0⟩, 60⟩], []⟩ "ccc").res =
      .ok ⟨1, "ccc", "https://c.io", 0, none, 0⟩ ∧
    (URL.mk 1 "ccc" "https://c.io" 0 none 0).shortCode = "ccc" := by
  have hwk : wellKeyedCache [⟨"url:ccc", .record ⟨1, "ccc", "https://c.io", 0, none, 0⟩, 60⟩] := by
    intro e he v hv
    simp only [List.mem_singleton] at he
    subst he
    cases hv
    rfl
  refine ⟨hwk, by decide, ?_⟩
  exact claim_C9 true 300 "ccc"
    ⟨[⟨"url:ccc", .record ⟨1, "ccc", "https://c.io", 0, none, 0⟩, 60⟩], []⟩
    (.error .notFound) ⟨1, "ccc", "https://c.io", 0, none, 0⟩
    hwk (fun v h => Except.noConfusion h) (by decide)

theorem encodeBase62Loop_spec :
    ∀ (fuel n : Nat) (s : String), n < 62 ^ fuel →
      encodeBase62Loop fuel n s =
        String.mk ((Nat.digits 62 n).reverse.map (fun d => base62Chars.data.getD d '0')) ++ s := by
  intro fuel
  induction fuel with
  | zero =>
    intro n s hn
    interval_cases n
    simp [encodeBase62Loop]
  | succ f ih =>
    intro n s hn
    by_cases h0 : n = 0
    · subst h0
      simp [encodeBase62Loop]
    · have hlt : n / 62 < 62 ^ f := by
        rw [Nat.div_lt_iff_lt_mul (by norm_num)]
        calc n < 62 ^ (f + 1) := hn
        _ = 62 ^ f * 62 := by rw [pow_succ]
      rw [show encodeBase62Loop (f + 1) n s =
            if n == 0 then s
            else encodeBase62Loop f (n / 62)
              (String.mk [base62Chars.data.getD (n % 62) '0'] ++ s) from rfl,
        if_neg (by simp [h0]), ih (n / 62) _ hlt,
        Nat.digits_def' (by norm_num : (1:Nat) < 62) (Nat.pos_of_ne_zero h0)]
      apply string_data_inj
      simp [String.data_append]

theorem EncodeBase62_spec (n : Nat) (hn : n < 62 ^ 64) :
    EncodeBase62 n = base62Spec n := by
  unfold EncodeBase62 base62Spec
  by_cases h0 : n = 0
  · simp [h0]
    rfl
  · rw [if_neg (by simpa using h0), if_neg h0, encodeBase62Loop_spec 64 n "" hn]
    apply string_data_inj
    simp [String.data_append]

theorem beUint64_fold_lt :
    ∀ (l : List Nat) (acc : Nat), (∀ b ∈ l, b < 256) →
      l.foldl (fun acc b => acc * 256 + b) acc < (acc + 1) * 256 ^ l.length := by
  intro l
  induction l with
  | nil => intro acc _; simp
  | cons b t ih =>
    intro acc hb
    have hb0 : b < 256 := hb b (by simp)
    have ht : ∀ x ∈ t, x < 256 := fun x hx => hb x (by simp [hx])
    calc (b :: t).foldl (fun acc b => acc * 256 + b) acc
        = t.foldl (fun acc b => acc * 256 + b) (acc * 256 + b) := by simp
      _ < (acc * 256 + b + 1) * 256 ^ t.length := ih (acc * 256 + b) ht
      _ ≤ ((acc + 1) * 256) * 256 ^ t.length := by
          have hle : acc * 256 + b + 1 ≤ (acc + 1) * 256 := by nlinarith
          exact Nat.mul_le_mul_right _ hle
      _ = (acc + 1) * 256 ^ (b :: t).length := by
          simp [List.length_cons, pow_succ]
          ring

theorem be32_mem_lt {n b : Nat} (hb : b ∈ be32 n) : b < 256 := by
  simp [be32] at hb
  rcases hb with h | h | h | h <;> subst h <;> exact Nat.mod_lt _ (by norm_num)

theorem sha256Bytes_mem_lt {msg : List Nat} {b : Nat} (hb : b ∈ sha256Bytes msg) : b < 256 := by
  unfold sha256Bytes at hb
  simp only [List.mem_append] at hb
  rcases hb with ((((((h | h) | h) | h) | h) | h) | h) | h <;> exact be32_mem_lt h

theorem HashURL_lt (s : String) : HashURL s < 2 ^ 64 := by
  unfold HashURL beUint64
  have hmem : ∀ b ∈ (sha256Bytes (utf8Bytes s)).take 8, b < 256 :=
    fun b hb => sha256Bytes_mem_lt (List.mem_of_mem_take hb)
  have h := beUint64_fold_lt ((sha256Bytes (utf8Bytes s)).take 8) 0 hmem
  simp only [Nat.zero_add, Nat.one_mul] at h
  have hlen : ((sha256Bytes (utf8Bytes s)).take 8).length ≤ 8 := by
    simp [List.length_take]
  refine lt_of_lt_of_le h ?_
  calc (256:Nat) ^ ((sha256Bytes (utf8Bytes s)).take 8).length
      ≤ 256 ^ 8 := Nat.pow_le_pow_right (by norm_num) hlen
    _ = 2 ^ 64 := by norm_num

/-- C7: for a parseable URL (canonicalization succeeds) with configured
length `L`, `Generate` returns the first `L` characters of the base-62
rendering — standard positional base-62 over the alphabet `0-9A-Za-z`,
with `0` encoding to `"0"` — of the 64-bit unsigned integer read
big-endian from the first 8 bytes of the SHA-256 digest of the canonical
URL, and fails with the generation-failed kind exactly when that rendering
is shorter than `L`; an unparseable URL yields the invalid-URL kind. -/
theorem claim_C7 :
    ∀ (codeLength : Nat) (longURL : String),
      (Canonicalize longURL = none → Generate codeLength longURL = .error .invalidURL) ∧
      (∀ c, Canonicalize longURL = some c →
        Generate codeLength longURL =
          (if strLen (EncodeBase62 (beUint64 ((sha256Bytes (utf8Bytes c)).take 8))) < codeLength
           then .error .shortCodeGeneration
           else .ok (strTake
             (EncodeBase62 (beUint64 ((sha256Bytes (utf8Bytes c)).take 8))) codeLength))) ∧
      (∀ c, Canonicalize longURL = some c →
        HashURL c < 2 ^ 64 ∧ EncodeBase62 (HashURL c) = base62Spec (HashURL c)) ∧
      (∀ r, Generate codeLength longURL = .ok r → strLen r = codeLength) ∧
      EncodeBase62 0 = "0" := by
  intro codeLength longURL
  refine ⟨?_, ?_, ?_, ?_, rfl⟩
  · intro h
    unfold Generate
    rw [h]
  · intro c hc
    unfold Generate
    rw [hc]
    rfl
  · intro c _
    refine ⟨HashURL_lt c, EncodeBase62_spec _ ?_⟩
    calc HashURL c < 2 ^ 64 := HashURL_lt c
      _ ≤ 62 ^ 64 := Nat.pow_le_pow_left (by norm_num) 64
  · intro r hr
    unfold Generate at hr
    cases hc : Canonicalize longURL with
    | none => rw [hc] at hr; simp at hr
    | some c =>
      rw [hc] at hr
      dsimp only at hr
      by_cases hlt : strLen (EncodeBase62 (HashURL c)) < codeLength
      · rw [if_pos hlt] at hr; simp at hr
      · rw [if_neg hlt] at hr
        simp only [Except.ok.injEq] at hr
        subst hr
        simp only [strLen] at hlt
        simp only [strTake, strLen, List.length_take]
        omega

/-- C7 witness: a concrete evaluation of the pipeline at length 7. -/
theorem claim_C7_witness :
    Canonicalize "https://example.com/page" = some "https://example.com/page" ∧
    Generate 7 "https://example.com/page" =
      (if strLen (EncodeBase62
            (beUint64 ((sha256Bytes (utf8Bytes "https://example.com/page")).take 8))) < 7
       then .error .shortCodeGeneration
       else .ok (strTake (EncodeBase62
            (beUint64 ((sha256Bytes (utf8Bytes "https://example.com/page")).take 8))) 7)) ∧
    (∀ r, Generate 7 "https://example.com/page" = .ok r → strLen r = 7) := by
  have h := claim_C7 7 "https://example.com/page"
  exact ⟨by decide, h.2.1 "https://example.com/page" (by decide), h.2.2.2.1⟩

theorem createLoop_succ (L : Nat) (urlStr : String) (createRes : Nat → Except RepoErr Unit)
    (m k : Nat) :
    URLService.createLoop L urlStr createRes (m + 1) k =
      (match Generate L (urlStr ++ toString k) with
       | .error genErr => .error genErr
       | .ok candidate =>
         match createRes k with
         | .error .codeConflict => URLService.createLoop L urlStr createRes m (k + 1)
         | .error e => .error (.repo e)
         | .ok _ => .ok candidate) := rfl

theorem createLoop_skip (L : Nat) (urlStr : String) (createRes : Nat → Except RepoErr Unit) :
    ∀ (i rem k : Nat),
      (∀ j, k ≤ j → j < k + i →
        (∃ c, Generate L (urlStr ++ toString j) = .ok c) ∧
        createRes j = .error .codeConflict) →
      i ≤ rem →
      URLService.createLoop L urlStr createRes rem k =
        URLService.createLoop L urlStr createRes (rem - i) (k + i) := by
  intro i
  induction i with
  | zero => intro rem k _ _; simp
  | succ n ih =>
    intro rem k hconf hle
    obtain ⟨⟨c, hc⟩, hcf⟩ := hconf k (le_refl k) (by omega)
    cases rem with
    | zero => omega
    | succ m =>
      have hstep : URLService.createLoop L urlStr createRes (m + 1) k =
          URLService.createLoop L urlStr createRes m (k + 1) := by
        rw [createLoop_succ, hc, hcf]
      have e1 : m + 1 - (n + 1) = m - n := by omega
      have e2 : k + (n + 1) = k + 1 + n := by omega
      rw [hstep, e1, e2]
      exact ih m (k + 1) (fun j hj1 hj2 => hconf j (by omega) (by omega)) (by omega)

/-- C5: for a non-custom-alias create request, attempt `k` (0-indexed)
derives its candidate by running the generator on the request URL with the
decimal rendering of `k` appended; the loop moves to attempt `k+1` exactly
on the code-conflict kind, surfaces any generator error or other `Create`
error immediately, stops at the first successful insert (answering that
attempt's candidate), and surfaces the generation-failed kind once all
`shortCodeRetries` attempts have ended in conflict. -/
theorem claim_C5 :
    ∀ (codeLength retries : Nat) (baseURL : String) (createRes : Nat → Except RepoErr Unit)
      (now : Int) (req : CreateURLRequest) (k : Nat),
      req.customAlias = "" →
      (∀ j, j < k →
        (∃ c, Generate codeLength (req.url ++ toString j) = .ok c) ∧
        createRes j = .error .codeConflict) →
      (k < retries → ∀ c, Generate codeLength (req.url ++ toString k) = .ok c →
        createRes k = .ok () →
        URLService.CreateShortURL codeLength retries baseURL createRes now req =
          .ok ⟨c, baseURL ++ "/" ++ c,
               if req.expiresIn > 0 then some (now + req.expiresIn * nanosPerDay) else none⟩) ∧
      (k < retries → ∀ e, Generate codeLength (req.url ++ toString k) = .error e →
        URLService.CreateShortURL codeLength retries baseURL createRes now req = .error e) ∧
      (k < retries → ∀ c e, Generate codeLength (req.url ++ toString k) = .ok c →
        createRes k = .error e → e ≠ .codeConflict →
        URLService.CreateShortURL codeLength retries baseURL createRes now req =
          .error (.repo e)) ∧
      (k = retries →
        URLService.CreateShortURL codeLength retries baseURL createRes now req =
          .error .shortCodeGeneration) := by
  intro L retries baseURL createRes now req k halias hconf
  have hskip : k ≤ retries →
      URLService.createLoop L req.url createRes retries 0 =
        URLService.createLoop L req.url createRes (retries - k) k := by
    intro hk
    have h := createLoop_skip L req.url createRes k retries 0
      (fun j _ hj2 => hconf j (by omega)) hk
    simpa using h
  refine ⟨?_, ?_, ?_, ?_⟩
  · intro hk c hgen hok
    have hloop : URLService.createLoop L req.url createRes retries 0 = .ok c := by
      rw [hskip (le_of_lt hk)]
      obtain ⟨m, hm⟩ : ∃ m, retries - k = m + 1 := ⟨retries - k - 1, by omega⟩
      rw [hm, createLoop_succ, hgen, hok]
    simp [URLService.CreateShortURL, halias, hloop]
  · intro hk e hgen
    have hloop : URLService.createLoop L req.url createRes retries 0 = .error e := by
      rw [hskip (le_of_lt hk)]
      obtain ⟨m, hm⟩ : ∃ m, retries - k = m + 1 := ⟨retries - k - 1, by omega⟩
      rw [hm, createLoop_succ, hgen]
    simp [URLService.CreateShortURL, halias, hloop]
  · intro hk c e hgen hcr hne
    have hloop : URLService.createLoop L req.url createRes retries 0 = .error (.repo e) := by
      rw [hskip (le_of_lt hk)]
      obtain ⟨m, hm⟩ : ∃ m, retries - k = m + 1 := ⟨retries - k - 1, by omega⟩
      rw [hm, createLoop_succ, hgen, hcr]
      cases e with
      | codeConflict => exact absurd rfl hne
      | notFound => rfl
      | transport tag => rfl
    simp [URLService.CreateShortURL, halias, hloop]
  · intro hk
    subst hk
    have hloop : URLService.createLoop L req.url createRes k 0 =
        .error .shortCodeGeneration := by
      rw [hskip (le_refl k), Nat.sub_self]
      rfl
    simp [URLService.CreateShortURL, halias, hloop]

/-- C5 witness: with retries = 2, a conflict on attempt 0 and success on
attempt 1, the service answers the candidate generated from the URL with
"1" appended. -/
theorem claim_C5_witness :
    ((⟨"http://a", "", 0⟩ : CreateURLRequest).customAlias = "") ∧
    (∀ j, j < 1 →
      (∃ c, Generate 7 ("http://a" ++ toString j) = .ok c) ∧
      (fun j => if j == 0 then (.error .codeConflict : Except RepoErr Unit) else .ok ()) j =
        .error .codeConflict) ∧
    Generate 7 ("http://a" ++ toString 1) = .ok "Lq0lBs6" ∧
    URLService.CreateShortURL 7 2 "http://s"
        (fun j => if j == 0 then .error .codeConflict else .ok ()) 0 ⟨"http://a", "", 0⟩ =
      .ok ⟨"Lq0lBs6", "http://s" ++ "/" ++ "Lq0lBs6", none⟩ := by
  have hconf : ∀ j, j < 1 →
      (∃ c, Generate 7 ("http://a" ++ toString j) = .ok c) ∧
      (fun j => if j == 0 then (.error .codeConflict : Except RepoErr Unit) else .ok ()) j =
        .error .codeConflict := by
    intro j hj
    interval_cases j
    exact ⟨⟨"Aa465I0", by decide⟩, rfl⟩
  have hgen : Generate 7 ("http://a" ++ toString 1) = .ok "Lq0lBs6" := by decide
  have h := (claim_C5 7 2 "http://s"
      (fun j => if j == 0 then .error .codeConflict else .ok ()) 0 ⟨"http://a", "", 0⟩ 1
      rfl hconf).1 (by norm_num) "Lq0lBs6" hgen (by decide)
  exact ⟨rfl, hconf, hgen, by simpa using h⟩

theorem canonicalizeURL_eq (p : GoURL) :
    canonicalizeURL p =
      urlString ⟨p.scheme, dropDefaultPort p.scheme (lowerStr p.host),
                 strTrimSuffix p.path "/", p.forceQuery, p.rawQuery, ""⟩ := by
  cases p with
  | mk scheme host path fq rq frag =>
    unfold canonicalizeURL dropDefaultPort
    dsimp only
    by_cases hs : scheme = "https"
    · subst hs
      by_cases he : strEndsWith (lowerStr host) ":443"
      · simp [he, strTrimSuffix]
      · simp [he, strTrimSuffix]
    · by_cases hh : scheme = "http"
      · subst hh
        by_cases he : strEndsWith (lowerStr host) ":80"
        · simp [he, strTrimSuffix]
        · simp [he, strTrimSuffix]
      · simp [hs, hh]

/-- C6 (amended): two parseable URLs that differ only in host case,
default-port presence, the fragment, or a single trailing slash on the
path — the latter restricted to pairs whose paths coincide after trimming
one trailing slash from each (a path ending `…//` against `…/` does not
qualify) — receive the same short code. -/
theorem claim_C6 :
    ∀ (codeLength : Nat) (u1 u2 : String) (p1 p2 : GoURL),
      parseURL u1 = some p1 → parseURL u2 = some p2 →
      amendedEquivURL p1 p2 →
      Generate codeLength u1 = Generate codeLength u2 := by
  intro L u1 u2 p1 p2 h1 h2 heq
  obtain ⟨hs, hh, hp, hf, hq⟩ := heq
  have hc1 : Canonicalize u1 = some (canonicalizeURL p1) := by
    unfold Canonicalize
    rw [h1]
  have hc2 : Canonicalize u2 = some (canonicalizeURL p2) := by
    unfold Canonicalize
    rw [h2]
  have hcc : canonicalizeURL p1 = canonicalizeURL p2 := by
    rw [canonicalizeURL_eq, canonicalizeURL_eq, hh, hp, hf, hq, hs]
  unfold Generate
  rw [hc1, hc2, hcc]

/-- C6 counterexample to the claim as stated: `https://example.com//` and
`https://example.com/` differ only in a single trailing slash on the path
(paths `//` and `/`), yet canonicalization trims exactly one slash from
each (yielding paths `/` and `` — different canonical URLs), so the
generator produces different codes. -/
theorem claim_C6_counterexample :
    parseURL "https://example.com//" = some ⟨"https", "example.com", "//", false, "", ""⟩ ∧
    parseURL "https://example.com/" = some ⟨"https", "example.com", "/", false, "", ""⟩ ∧
    claimEquivURL ⟨"https", "example.com", "//", false, "", ""⟩
      ⟨"https", "example.com", "/", false, "", ""⟩ ∧
    Generate 7 "https://example.com//" ≠ Generate 7 "https://example.com/" := by
  refine ⟨by decide, by decide, ?_, by decide⟩
  exact ⟨rfl, by decide, Or.inr (Or.inl (by decide)), rfl, rfl⟩

/-- C6 witness: a pair combining all four differences — host case, default
port, trailing slash, fragment — receives the same code. -/
theorem claim_C6_witness :
    parseURL "https://example.com/page/" =
      some ⟨"https", "example.com", "/page/", false, "", ""⟩ ∧
    parseURL "https://EXAMPLE.COM:443/page#top" =
      some ⟨"https", "EXAMPLE.COM:443", "/page", false, "", "top"⟩ ∧
    amendedEquivURL ⟨"https", "example.com", "/page/", false, "", ""⟩
      ⟨"https", "EXAMPLE.COM:443", "/page", false, "", "top"⟩ ∧
    Generate 7 "https://example.com/page/" = Generate 7 "https://EXAMPLE.COM:443/page#top" := by
  refine ⟨by decide, by decide, ?_, ?_⟩
  · exact ⟨rfl, by decide, by decide, rfl, rfl⟩
  · exact claim_C6 7 "https://example.com/page/" "https://EXAMPLE.COM:443/page#top"
      ⟨"https", "example.com", "/page/", false, "", ""⟩
      ⟨"https", "EXAMPLE.COM:443", "/page", false, "", "top"⟩
      (by decide) (by decide) ⟨rfl, by decide, by decide, rfl, rfl⟩
